import Mathlib

/-!
Verification of the form state and validation engine of `ReusableForm.tsx`
(easy-form-builder). The component is shallowly embedded: JavaScript values
are the inductive `Value`, the React state object `formData` is an ordered
association list `FormState`, and each handler of the component becomes a
pure Lean function on that state. Handlers that can throw a `TypeError` at
runtime (property access or spread on a non-iterable) return `Option`.
-/

namespace EasyForm

/-- A JavaScript runtime value as manipulated by the component: scalars,
arrays (repeatable-group state), records (one repeatable entry, or the whole
form object), and `undefined` (absent properties and array holes). -/
inductive Value where
  | str (s : String)
  | bool (b : Bool)
  | num (n : Int)
  | arr (elems : List Value)
  | obj (fields : List (String × Value))
  | undefined
deriving Repr

/-- The component state `formData : Record<string, any>`: an ordered list of
key-value bindings with distinct keys, as a JS object literal. -/
abbrev FormState := List (String × Value)

/-- JS truthiness of a value: `undefined`, `false`, `0` and the empty string
are falsy; arrays and objects are always truthy. -/
def jsTruthy : Value → Bool
  | .str s => s ≠ ""
  | .bool b => b
  | .num n => n ≠ 0
  | .arr _ => true
  | .obj _ => true
  | .undefined => false

/-- `Array.isArray`. -/
def isArray : Value → Bool
  | .arr _ => true
  | _ => false

/-- Whether a value is a record (a plain object). -/
def isObj : Value → Bool
  | .obj _ => true
  | _ => false

/-- Property lookup on an object/record, `none` when the key is missing. -/
def lookupKey : List (String × α) → String → Option α
  | [], _ => none
  | (k, v) :: rest, key => if k = key then some v else lookupKey rest key

/-- Property assignment `o[k] = v` on a JS object (also the semantics of the
spread-update `{...o, [k]: v}`): an existing key keeps its position and gets
the new value, a new key is appended. -/
def setKey : List (String × α) → String → α → List (String × α)
  | [], key, v => [(key, v)]
  | (k, w) :: rest, key, v =>
      if k = key then (k, v) :: rest else (k, w) :: setKey rest key v

/-- Reading `formData[name]`: a missing property reads as `undefined`. -/
def getProp (s : FormState) (k : String) : Value :=
  (lookupKey s k).getD .undefined

/-- JS indexed array write `a[i] = v`: in range it replaces, past the end it
pads the skipped indices with holes (which read back as `undefined`). -/
def arraySet (xs : List Value) (i : Nat) (v : Value) : List Value :=
  if i < xs.length then xs.set i v
  else xs ++ List.replicate (i - xs.length) .undefined ++ [v]

/-- Object spread `{...v}` of an arbitrary value: an object contributes its
fields, an array or a string contributes index-keyed entries, primitives and
`undefined` contribute nothing. Never throws. -/
def objSpreadFields : Value → List (String × Value)
  | .obj fs => fs
  | .arr xs => xs.enum.map fun p => (toString p.1, p.2)
  | .str s => s.toList.enum.map fun p => (toString p.1, .str (String.singleton p.2))
  | _ => []

/-- Array spread `[...v]` of an arbitrary value: arrays and strings are
iterable; every other value makes the spread throw a `TypeError` (`none`). -/
def arraySpread : Value → Option (List Value)
  | .arr xs => some xs
  | .str s => some (s.toList.map fun c => .str (String.singleton c))
  | _ => none

/-- `handleChange(name, value, index, nestedKey)` from `ReusableForm.tsx`
(lines 107-135), the single mutation entry point of the Form State Store.
With no `index` it replaces the top-level value. With an `index` it first
coerces a non-array value at `name` to `[]`, replaces a falsy entry at
`index` by `{}` (a write past the end leaves `undefined` holes at the skipped
indices, as in JS), and then either merges `{nestedKey: value}` into the
entry (a truthy `nestedKey`) or replaces the whole entry by `value`. -/
def handleChange (name : String) (value : Value) (index : Option Nat)
    (nestedKey : Option String) (prev : FormState) : FormState :=
  match index with
  | none => setKey prev name value
  | some i =>
      let xs := match getProp prev name with
        | .arr l => l
        | _ => []
      let xs1 := if jsTruthy (xs.getD i .undefined) then xs else arraySet xs i (.obj [])
      match nestedKey with
      | some nk =>
          if nk = "" then
            setKey prev name (.arr (arraySet xs1 i value))
          else
            let entry := xs1.getD i .undefined
            setKey prev name (.arr (arraySet xs1 i (.obj (setKey (objSpreadFields entry) nk value))))
      | none => setKey prev name (.arr (arraySet xs1 i value))

/-- `handleAddRepeatable(name)` (lines 137-143): appends `{}` to
`[...(prev[name] || []), {}]`. The spread throws (result `none`) when the
current value is truthy but not iterable (a nonzero number, `true`, or a
plain object). -/
def handleAddRepeatable (name : String) (prev : FormState) : Option FormState :=
  let base := if jsTruthy (getProp prev name) then getProp prev name else .arr []
  match arraySpread base with
  | some xs => some (setKey prev name (.arr (xs ++ [.obj []])))
  | none => none

/-- `arr.filter((_, i) => i !== index)` starting at position `i`: every
element except the one at `index`, order preserved. -/
def filterOutIdx (index : Nat) : Nat → List Value → List Value
  | _, [] => []
  | i, x :: xs =>
      if i = index then filterOutIdx index (i + 1) xs
      else x :: filterOutIdx index (i + 1) xs

/-- `handleRemoveRepeatable(name, index)` (lines 145-150): removes the entry
at `index` via `prev[name].filter((_, i) => i !== index)`. The call throws
(result `none`) unless `prev[name]` is an array. -/
def handleRemoveRepeatable (name : String) (index : Nat) (prev : FormState) :
    Option FormState :=
  match getProp prev name with
  | .arr xs => some (setKey prev name (.arr (filterOutIdx index 0 xs)))
  | _ => none

/-- The spec's `setScalar(key, value)` is `handleChange` with no index. -/
def setScalar (key : String) (value : Value) (s : FormState) : FormState :=
  handleChange key value none none s

/-- The spec's `setRepeatableEntry(key, index, value)` is `handleChange` with
an index and no nested key. -/
def setRepeatableEntry (key : String) (index : Nat) (value : Value)
    (s : FormState) : FormState :=
  handleChange key value (some index) none s

/-- The spec's `setRepeatableField(key, index, nestedKey, value)` is
`handleChange` with both an index and a nested key. -/
def setRepeatableField (key : String) (index : Nat) (nestedKey : String)
    (value : Value) (s : FormState) : FormState :=
  handleChange key value (some index) (some nestedKey) s

/-- The spec's `addRepeatableEntry(key)`. -/
def addRepeatableEntry (key : String) (s : FormState) : Option FormState :=
  handleAddRepeatable key s

/-- The spec's `removeRepeatableEntry(key, index)`. -/
def removeRepeatableEntry (key : String) (index : Nat) (s : FormState) :
    Option FormState :=
  handleRemoveRepeatable key index s

/-- A consumer-supplied Joi leaf rule (`field.rule`). The engine treats it as
a black box: given the value found at the rule's key (`none` when the key is
missing or holds `undefined`, which Joi treats as absent), it returns the
list of violation messages, empty on success. -/
abbrev LeafCheck := Option Value → List String

/-- A nested field descriptor inside a repeatable group's `fields` sub-schema.
The source `Field` interface is recursive, but the component only ever
consumes one level of nesting (the spec's explicit non-goal: no groups of
groups), so nested descriptors are a separate non-recursive type. -/
structure NestedField where
  key : String
  rule : Option LeafCheck := none

/-- A top-level field descriptor (the `Field` interface of the source,
restricted to the members the state/validation engine consumes; presentation
members such as `label`, `options`, `colSize`, `attributes`, `component` and
`placeholder` are out of the verified core). `showCond` embeds the source's
`show` member, which is a Lean keyword. `min`/`max` are the length bounds
read by `handleSubmit` via `field.min ?? 0` and `field.max ?? 1000`. -/
structure Field where
  key : String
  type : String := "text"
  showCond : Option (FormState → Bool) := none
  hide : Option (FormState → Bool) := none
  repeatable : Bool := false
  deletable : Option (FormState → Bool) := none
  addable : Option (FormState → Bool) := none
  fields : Option (List NestedField) := none
  tab : Option String := none
  rule : Option LeafCheck := none
  min : Option Nat := none
  max : Option Nat := none

/-- One entry of Joi's `error.details`: the violation's path (key, and for
array items also the index and the nested key) and its message. -/
structure JoiError where
  path : List String
  message : String
deriving Repr, DecidableEq

/-- A rule registered at a top-level key by `handleSubmit`'s schema builder:
either a consumer leaf rule, or the composite
`Joi.array().min(lo).max(hi).items(Joi.object(itemKeys).unknown())` built for
a repeatable field. These two shapes are the only ones the code builds. -/
inductive TopRule where
  | leaf (check : LeafCheck)
  | arrayOfObjects (minLen maxLen : Nat) (itemKeys : List (String × LeafCheck))

/-- Joi presence lookup on an object: a missing key and a key holding
`undefined` are both absent. -/
def joiGet (fs : List (String × Value)) (k : String) : Option Value :=
  match lookupKey fs k with
  | some .undefined => none
  | o => o

/-- Validation of one array item against the nested object schema
`Joi.object(itemKeys).unknown()`: each registered nested rule is applied to
the value at its own key, with the item's key appended to the error path;
keys of the item that are not in `itemKeys` are ignored (`.unknown()`).
A non-object item is a single type error, and an array hole (an `undefined`
item) is Joi's sparse-array error. -/
def validateEntryKeys (itemKeys : List (String × LeafCheck)) (path : List String)
    (fs : List (String × Value)) : List JoiError :=
  match itemKeys with
  | [] => []
  | (nk, chk) :: rest =>
      ((chk (joiGet fs nk)).map fun m => ⟨path ++ [nk], m⟩) ++
        validateEntryKeys rest path fs

/-- See `validateEntryKeys`. -/
def validateEntry (itemKeys : List (String × LeafCheck)) (path : List String) :
    Value → List JoiError
  | .obj fs => validateEntryKeys itemKeys path fs
  | .undefined => [⟨path, "must not be a sparse array item"⟩]
  | _ => [⟨path, "must be of type object"⟩]

/-- Validation of the items of an array value, index by index, every item's
index appended to the path (`abortEarly: false`: all items are checked). -/
def validateItems (itemKeys : List (String × LeafCheck)) (path : List String)
    (i : Nat) : List Value → List JoiError
  | [] => []
  | x :: xs =>
      validateEntry itemKeys (path ++ [toString i]) x ++
        validateItems itemKeys path (i + 1) xs

/-- Validation of one registered top-level rule against the value at its key.
Joi schemas are optional by default, so an absent value passes both shapes.
For the composite array rule: a non-array value is a type error; otherwise
the `min`/`max` length bounds are checked at the array's own path and every
item is validated (exhaustively, `abortEarly: false`). -/
def validateTopRule (r : TopRule) (path : List String) (v : Option Value) :
    List JoiError :=
  match r with
  | .leaf chk => (chk v).map fun m => ⟨path, m⟩
  | .arrayOfObjects lo hi itemKeys =>
      match v with
      | none => []
      | some (.arr xs) =>
          (if xs.length < lo then [⟨path, "must contain at least the minimum number of items"⟩] else []) ++
            (if hi < xs.length then [⟨path, "must contain less than or equal to the maximum number of items"⟩] else []) ++
            validateItems itemKeys path 0 xs
      | some _ => [⟨path, "must be an array"⟩]

/-- Validation of the whole form state against the registered top-level rules
(the body of `Joi.object(rules).unknown().validate(formData,
{abortEarly:false})`): every registered rule is applied, in registration
order, to the value at its key; state keys with no registered rule are
ignored (the top-level `.unknown()`). The result is the concatenation of all
violations, empty iff validation succeeds. -/
def validateTop (rules : List (String × TopRule)) (s : FormState) : List JoiError :=
  match rules with
  | [] => []
  | (k, r) :: rest => validateTopRule r [k] (joiGet s k) ++ validateTop rest s

/-- The inner `reduce` of `handleSubmit` (lines 160-165): the nested object
schema of a repeatable field, keeping only nested fields that carry a `rule`
(nested fields without a rule are unconstrained). -/
def nestedRules (nfs : List NestedField) : List (String × LeafCheck) :=
  nfs.foldl
    (fun acc nf =>
      match nf.rule with
      | some r => setKey acc nf.key r
      | none => acc)
    []

/-- The outer `reduce` of `handleSubmit` (lines 156-172): the schema built at
submit. A field that is `repeatable` and has a (truthy, possibly empty)
`fields` list registers the composite array rule with bounds
`field.min ?? 0` and `field.max ?? 1000`; otherwise a field with a `rule`
registers that rule; all other fields register nothing. A later field with
the same key overwrites the earlier registration. -/
def buildTopRules (fields : List Field) : List (String × TopRule) :=
  fields.foldl
    (fun acc f =>
      if f.repeatable && f.fields.isSome then
        setKey acc f.key
          (.arrayOfObjects (f.min.getD 0) (f.max.getD 1000)
            (nestedRules (f.fields.getD [])))
      else
        match f.rule with
        | some r => setKey acc f.key (.leaf r)
        | none => acc)
    []

/-- `err.path.join(".")` (line 180): the dotted ErrorMap key of a violation. -/
def joinPath : List String → String
  | [] => ""
  | [a] => a
  | a :: b :: rest => a ++ "." ++ joinPath (b :: rest)

/-- The ErrorMap built from `error.details` (lines 179-182): a reduce that
stores each message under its dotted path, a later detail with the same
joined path overwriting an earlier one. -/
def errorMapOf (errs : List JoiError) : List (String × String) :=
  errs.foldl (fun acc e => setKey acc (joinPath e.path) e.message) []

/-- The observable effects of one submit event: the value passed to
`setErrorMessages`, and one list entry per invocation of the external
`onSubmit` callback carrying the form state passed to it (the callback also
receives `setFormData`, the mutation handle bound to the Form State Store,
which is the same for every invocation and therefore not recorded). -/
structure SubmitEffects where
  newErrorMessages : List (String × String)
  callbackInvocations : List FormState
deriving Repr

/-- `handleSubmit` (lines 152-192): build the schema from the full field
list, validate the current state with `abortEarly: false`; on any violation
store the ErrorMap and return without invoking the callback; on success
clear the ErrorMap and invoke `onSubmit(formData, setFormData)` once. -/
def handleSubmit (fields : List Field) (formData : FormState) : SubmitEffects :=
  match validateTop (buildTopRules fields) formData with
  | [] => ⟨[], [formData]⟩
  | e :: rest => ⟨errorMapOf (e :: rest), []⟩

/-- The visibility decision computed both by the `filteredFields` filter
(lines 79-83) and, identically, at the top of `renderField` (lines 212-214):
`shouldShow && !shouldHide` where an absent `show` defaults to `true` and an
absent `hide` defaults to `false`. -/
def fieldVisible (f : Field) (s : FormState) : Bool :=
  let shouldShow := match f.showCond with
    | some p => p s
    | none => true
  let shouldHide := match f.hide with
    | some p => p s
    | none => false
  shouldShow && !shouldHide

/-- Modelled from the spec: the §4.2 contract
`visible(field, state) = (show ? show(state) : true) AND NOT (hide ? hide(state) : false)`,
written from the spec's words, to be compared with the source's
`fieldVisible`. -/
def visibleSpec (f : Field) (s : FormState) : Bool :=
  (match f.showCond with
    | some p => p s
    | none => true) &&
  !(match f.hide with
    | some p => p s
    | none => false)

/-- `filteredFields` (lines 79-83): the descriptors passing visibility. -/
def filteredFields (fields : List Field) (s : FormState) : List Field :=
  fields.filter fun f => fieldVisible f s

/-- Truthiness of `field.tab` (an empty tab name is falsy, hence untabbed). -/
def tabTruthy (f : Field) : Bool :=
  match f.tab with
  | some t => t ≠ ""
  | none => false

/-- `hasTabs` (line 86): some visible field carries a (truthy) tab name. -/
def hasTabs (fields : List Field) (s : FormState) : Bool :=
  (filteredFields fields s).any tabTruthy

/-- `Object.keys(tabbedFields)` for the reduce at lines 89-97: the distinct
truthy tab names of the visible fields, in first-seen order. -/
def tabKeys (fields : List Field) (s : FormState) : List String :=
  (filteredFields fields s).foldl
    (fun acc f =>
      match f.tab with
      | some t => if t ≠ "" && !acc.contains t then acc ++ [t] else acc
      | none => acc)
    []

/-- The `useEffect` at lines 101-105, the only place that writes `activeTab`
automatically: when tabs exist and `activeTab` is falsy (`null` or the empty
string), it is set to the first tab group's name; otherwise it is left
untouched. -/
def activeTabEffect (fields : List Field) (s : FormState)
    (activeTab : Option String) : Option String :=
  let truthyTab := match activeTab with
    | some t => t ≠ ""
    | none => false
  if hasTabs fields s && !truthyTab then (tabKeys fields s).head?
  else activeTab

/-- The per-field error lookup key computed in `renderField` (lines 224-227):
dotted `key.index.nestedKey` when an index is present and the nested key is
truthy, the plain key otherwise. -/
def renderErrorKey (key : String) (index : Option Nat) (nestedKey : Option String) :
    String :=
  match index, nestedKey with
  | some i, some nk => if nk = "" then key else key ++ "." ++ toString i ++ "." ++ nk
  | _, _ => key

/-- The render decision for one top-level field, abstracted from the JSX: an
invisible field renders nothing; an ordinary field becomes a scalar widget
(name, current value, and the error lookup key — it exposes no add or remove
control); a repeatable group exposes its entry count, the per-entry remove
control gated by `deletable` and the add control gated by `addable`. -/
inductive RenderedTop where
  | nothing
  | scalarNode (name : String) (value : Value) (errorKey : String)
  | repeatableNode (key : String) (entryCount : Nat) (canDelete canAdd : Bool)
deriving Repr

/-- The `type` values handled by `renderField`'s `switch` (lines 248-372);
any other value hits the `default` case and renders `null`. -/
def knownFieldType (t : String) : Bool :=
  ["text", "hidden", "textarea", "select", "radio", "switch", "checkbox",
    "checkbox-group", "custom"].contains t

/-- `renderField(field)` at top level (no index, no nested key): the
visibility re-check of lines 212-214, then a scalar widget bound to
`formData[key]` with error lookup key `key`; an unrecognized `type` falls to
the `default` case and renders nothing. -/
def renderFieldTop (f : Field) (s : FormState) : RenderedTop :=
  if fieldVisible f s then
    if knownFieldType f.type then
      .scalarNode f.key (getProp s f.key) (renderErrorKey f.key none none)
    else .nothing
  else .nothing

/-- `renderRepeatableField` (lines 375-458): visibility check, then the group
with one sub-block per entry of `formData[key]` (an array whenever this path
is reached from the guard at lines 481 and 493), the remove button shown per
entry when `deletable` (default `true`) and the add button when `addable`
(default `true`). -/
def renderRepeatableField (f : Field) (s : FormState) : RenderedTop :=
  let shouldDeletable := match f.deletable with
    | some p => p s
    | none => true
  let shouldAddable := match f.addable with
    | some p => p s
    | none => true
  if fieldVisible f s then
    .repeatableNode f.key
      (match getProp s f.key with
        | .arr xs => xs.length
        | _ => 0)
      shouldDeletable shouldAddable
  else .nothing

/-- The dispatch at lines 481-483 (untabbed) and 493-495 (tabbed), the same
expression at both sites:
`field.repeatable && Array.isArray(formData[field.key]) ? renderRepeatableField(field) : renderField(field)`. -/
def renderTopField (f : Field) (s : FormState) : RenderedTop :=
  if f.repeatable && isArray (getProp s f.key) then renderRepeatableField f s
  else renderFieldTop f s

/-! ### Concrete fixtures used by the examples of the spec -/

/-- A consumer "required string" rule with Joi's behavior for
`Joi.string().required()`: absent is an error, the empty string is an error,
a non-string is an error. -/
def requiredString : LeafCheck := fun v =>
  match v with
  | none => ["is required"]
  | some (.str s) => if s = "" then ["is not allowed to be empty"] else []
  | some _ => ["must be a string"]

/-- A consumer rule that rejects every value, used to witness that an
attached rule is ignored on a repeatable descriptor with sub-fields. -/
def rejectAll : LeafCheck := fun _ => ["rejected"]

/-- The spec's `email` example field: a required string at the top level. -/
def emailField : Field := { key := "email", rule := some requiredString }

/-- A second required top-level field, for the exhaustiveness example. -/
def nameField : Field := { key := "name", rule := some requiredString }

/-- The spec's repeatable `education` example: a required nested `school` and
an unconstrained nested `year`, no explicit `min`/`max`. -/
def educationField : Field :=
  { key := "education", repeatable := true,
    fields := some [{ key := "school", rule := some requiredString }, { key := "year" }] }

/-- A repeatable descriptor with sub-fields that also carries its own
(always-failing) rule: `handleSubmit`'s schema builder ignores the rule. -/
def ruleIgnoredField : Field :=
  { key := "edu", repeatable := true, fields := some [], rule := some rejectAll }

/-- A field on tab `A` that an edit can hide: visible while `hideA` is falsy. -/
def tabAField : Field :=
  { key := "a1", tab := some "A", showCond := some fun s => !jsTruthy (getProp s "hideA") }

/-- A field on tab `B`, always visible. -/
def tabBField : Field := { key := "b1", tab := some "B" }

/-! ### Derived characterizations used by the claims -/

/-- The exact condition under which `handleAddRepeatable` does not throw on
the current value at its key: the `[... , {}]` spread succeeds on an array or
a string, and a falsy value was first replaced by `[]`; every truthy
non-iterable value (a nonzero number, `true`, a plain object) throws. -/
def addSucceeds (v : Value) : Bool :=
  match v with
  | .arr _ => true
  | .str _ => true
  | _ => !jsTruthy v

/-- The current length of the array held at `k`, `0` when `k` does not hold
an array (the coercion `handleChange` performs before indexing). -/
def arrLenAt (s : FormState) (k : String) : Nat :=
  match getProp s k with
  | .arr xs => xs.length
  | _ => 0

/-! ### The FormState invariant of §3 -/

/-- A value admissible in a state satisfying the §3 invariant: when it is an
array, every existing index holds a record (in particular, never `undefined`,
i.e. no holes). -/
def valueOK : Value → Bool
  | .arr xs => xs.all isObj
  | _ => true

/-- The §3 FormState invariant: every array-valued binding of the state holds
records at all of its indices. -/
def stateInvB (s : FormState) : Bool :=
  s.all fun p => valueOK p.2

/-! ### Helper lemmas -/

theorem lookupKey_setKey_self (l : List (String × α)) (k : String) (v : α) :
    lookupKey (setKey l k v) k = some v := by
  induction l with
  | nil => simp [setKey, lookupKey]
  | cons h t ih =>
      obtain ⟨k1, w⟩ := h
      by_cases hk : k1 = k
      · simp [setKey, hk, lookupKey]
      · simp [setKey, hk, lookupKey, ih]

theorem lookupKey_setKey_other (l : List (String × α)) (k k2 : String) (v : α)
    (h : k2 ≠ k) : lookupKey (setKey l k v) k2 = lookupKey l k2 := by
  induction l with
  | nil => simp [setKey, lookupKey, Ne.symm h]
  | cons hd t ih =>
      obtain ⟨k1, w⟩ := hd
      by_cases hk : k1 = k
      · subst hk
        simp [setKey, lookupKey, Ne.symm h]
      · by_cases hk2 : k1 = k2
        · subst hk2
          simp [setKey, hk, lookupKey]
        · simp [setKey, hk, lookupKey, hk2, ih]

theorem setKey_ne_nil (l : List (String × α)) (k : String) (v : α) :
    setKey l k v ≠ [] := by
  cases l with
  | nil => simp [setKey]
  | cons hd t =>
      obtain ⟨k1, w⟩ := hd
      by_cases hk : k1 = k <;> simp [setKey, hk]

theorem all_setKey (P : α → Bool) (l : List (String × α)) (k : String) (v : α)
    (hl : (l.all fun p => P p.2) = true) (hv : P v = true) :
    ((setKey l k v).all fun p => P p.2) = true := by
  induction l with
  | nil => simp [setKey, hv]
  | cons hd t ih =>
      obtain ⟨k1, w⟩ := hd
      simp only [List.all_cons, Bool.and_eq_true] at hl
      by_cases hk : k1 = k
      · simp [setKey, hk, hv, hl.2]
      · simp [setKey, hk, hl.1, ih hl.2]

theorem all_set (P : α → Bool) (l : List α) (i : Nat) (v : α)
    (hl : l.all P = true) (hv : P v = true) : (l.set i v).all P = true := by
  induction l generalizing i with
  | nil => simp
  | cons hd t ih =>
      cases i with
      | zero => simp_all
      | succ j =>
          simp only [List.set_cons_succ, List.all_cons, Bool.and_eq_true] at hl ⊢
          exact ⟨hl.1, ih j hl.2⟩

theorem all_arraySet (P : Value → Bool) (xs : List Value) (i : Nat) (v : Value)
    (hle : i ≤ xs.length) (hxs : xs.all P = true) (hv : P v = true) :
    (arraySet xs i v).all P = true := by
  by_cases hlt : i < xs.length
  · simpa [arraySet, hlt] using all_set P xs i v hxs hv
  · have hi : i = xs.length := Nat.le_antisymm hle (Nat.le_of_not_lt hlt)
    simp [arraySet, hlt, hi, hxs, hv]

theorem foldl_setKey_ne_nil (errs : List JoiError) (acc : List (String × String))
    (h : acc ≠ []) :
    errs.foldl (fun a e => setKey a (joinPath e.path) e.message) acc ≠ [] := by
  induction errs generalizing acc with
  | nil => simpa using h
  | cons e rest ih =>
      exact ih _ (setKey_ne_nil _ _ _)

theorem errorMapOf_ne_nil (e : JoiError) (rest : List JoiError) :
    errorMapOf (e :: rest) ≠ [] := by
  simpa [errorMapOf, setKey] using foldl_setKey_ne_nil rest [(joinPath e.path, e.message)] (by simp)

theorem arraySet_length (xs : List Value) (i : Nat) (v : Value) :
    (arraySet xs i v).length = if i < xs.length then xs.length else i + 1 := by
  by_cases h : i < xs.length
  · simp [arraySet, h]
  · have hle : xs.length ≤ i := Nat.le_of_not_lt h
    simp [arraySet, h]
    omega

theorem valueOK_of_stateInv (s : FormState) (k : String) (v : Value)
    (hs : stateInvB s = true) (hl : lookupKey s k = some v) : valueOK v = true := by
  induction s with
  | nil => simp [lookupKey] at hl
  | cons hd t ih =>
      obtain ⟨k1, w⟩ := hd
      simp only [stateInvB, List.all_cons, Bool.and_eq_true] at hs
      by_cases hk : k1 = k
      · simp only [lookupKey, hk, if_pos rfl] at hl
        cases hl
        exact hs.1
      · simp only [lookupKey, hk, if_neg hk] at hl
        exact ih hs.2 hl

theorem all_filterOutIdx (P : Value → Bool) (n : Nat) (xs : List Value)
    (hxs : xs.all P = true) : ∀ i, (filterOutIdx n i xs).all P = true := by
  induction xs with
  | nil => intro i; simp [filterOutIdx]
  | cons x t ih =>
      intro i
      simp only [List.all_cons, Bool.and_eq_true] at hxs
      by_cases hi : i = n
      · simp [filterOutIdx, hi, ih hxs.2]
      · simp [filterOutIdx, hi, hxs.1, ih hxs.2]

theorem validateItems_eq_nil (ik : List (String × LeafCheck)) (path : List String)
    (xs : List Value) (h : ∀ x ∈ xs, ∀ p, validateEntry ik p x = []) :
    ∀ i, validateItems ik path i xs = [] := by
  induction xs with
  | nil => intro i; simp [validateItems]
  | cons x t ih =>
      intro i
      have ht : ∀ y ∈ t, ∀ p, validateEntry ik p y = [] := fun y hy => h y (List.mem_cons_of_mem _ hy)
      simp [validateItems, h x (List.mem_cons_self _ _), ih ht]

theorem entryFix_ok (l : List Value) (i : Nat)
    (hall : l.all isObj = true) (hle : i ≤ l.length) :
    ((if jsTruthy (l.getD i .undefined) then l else arraySet l i (.obj [])).all isObj = true) ∧
      i ≤ (if jsTruthy (l.getD i .undefined) then l else arraySet l i (.obj [])).length := by
  by_cases ht : jsTruthy (l.getD i .undefined) = true
  · simp only [if_pos ht]
    exact ⟨hall, hle⟩
  · have h2 : (arraySet l i (Value.obj [])).all isObj = true :=
      all_arraySet isObj l i (.obj []) hle hall (by simp [isObj])
    have h3 : i ≤ (arraySet l i (Value.obj [])).length := by
      rw [arraySet_length]
      by_cases hlt : i < l.length
      · simpa [hlt] using hle
      · simp [hlt]
    simp only [if_neg ht]
    exact ⟨h2, h3⟩

/-! ### Claim theorems -/

/-- C8: for every field descriptor and form state, the visibility decision of
the code equals the spec contract
`(show ? show(state) : true) AND NOT (hide ? hide(state) : false)`; the same
decision governs membership in `filteredFields`; `hide` takes precedence when
both predicates hold; and the decision is a pure function of the state. -/
theorem c8_visibility_contract :
    (∀ f s, fieldVisible f s = visibleSpec f s) ∧
    (∀ fields s f, f ∈ filteredFields fields s ↔ f ∈ fields ∧ fieldVisible f s = true) ∧
    (∀ f s ps ph, f.showCond = some ps → f.hide = some ph → ps s = true →
      ph s = true → fieldVisible f s = false) ∧
    (∀ f s1 s2, s1 = s2 → fieldVisible f s1 = fieldVisible f s2) := by
  refine ⟨fun f s => rfl, fun fields s f => by simp [filteredFields], ?_, ?_⟩
  · intro f s ps ph hs hh hps hph
    simp [fieldVisible, hs, hh, hps, hph]
  · intro f s1 s2 h
    rw [h]

/-- Witness for C8: a field whose `show` and `hide` predicates are both true
on the empty state is not visible — `hide` wins. -/
theorem c8_witness :
    fieldVisible
      { key := "w", showCond := some fun _ => true, hide := some fun _ => true } [] = false :=
  c8_visibility_contract.2.2.1
    { key := "w", showCond := some fun _ => true, hide := some fun _ => true }
    [] _ _ rfl rfl rfl rfl

/-- C9: the `useEffect` that manages the active tab never changes an already
set (truthy) active tab, whatever the field list and state; with fields
tagged `A` then `B` it defaults the unset active tab to `A`; and after a
switch to `B`, a state change that hides every field of tab `A` (leaving
only `B` as a tab group) still leaves the active tab at `B`. -/
theorem c9_active_tab_sticky :
    (∀ fields s t, t ≠ "" → activeTabEffect fields s (some t) = some t) ∧
    activeTabEffect [tabAField, tabBField] [] none = some "A" ∧
    tabKeys [tabAField, tabBField] [("hideA", .bool true)] = ["B"] ∧
    activeTabEffect [tabAField, tabBField] [("hideA", .bool true)] (some "B") = some "B" := by
  refine ⟨?_, by decide, by decide, by decide⟩
  intro fields s t ht
  simp [activeTabEffect, ht]

/-- Witness for C9: a set active tab survives an arbitrary state. -/
theorem c9_witness : activeTabEffect [] [] (some "B") = some "B" :=
  c9_active_tab_sticky.1 [] [] "B" (by decide)

/-- C10: for a descriptor marked repeatable, the repeatable rendering path
(the group node carrying the add and remove controls) is produced only when
the state value at its key is an array; when the key is absent or holds a
non-array value, the dispatch takes the ordinary `renderField` path, whose
output (a scalar widget or nothing) exposes no add or remove control. -/
theorem c10_repeatable_render_guard (f : Field) (s : FormState)
    (hrep : f.repeatable = true) :
    (∀ k n cd ca, renderTopField f s = .repeatableNode k n cd ca →
      isArray (getProp s f.key) = true) ∧
    (isArray (getProp s f.key) = false →
      renderTopField f s = renderFieldTop f s ∧
      (renderTopField f s = .nothing ∨
        ∃ nm v ek, renderTopField f s = .scalarNode nm v ek)) ∧
    (isArray (getProp s f.key) = true →
      renderTopField f s = renderRepeatableField f s) := by
  by_cases ha : isArray (getProp s f.key) = true
  · refine ⟨fun k n cd ca _ => ha, ?_, ?_⟩
    · intro hfalse
      rw [ha] at hfalse
      cases hfalse
    · intro _
      simp [renderTopField, hrep, ha]
  · have hfalse : isArray (getProp s f.key) = false := by
      cases h : isArray (getProp s f.key)
      · rfl
      · exact absurd h ha
    have hdisp : renderTopField f s = renderFieldTop f s := by
      simp [renderTopField, hfalse]
    refine ⟨?_, fun _ => ⟨hdisp, ?_⟩, fun htrue => absurd htrue ha⟩
    · intro k n cd ca heq
      rw [hdisp] at heq
      unfold renderFieldTop at heq
      split at heq
      · split at heq <;> cases heq
      · cases heq
    · rw [hdisp]
      unfold renderFieldTop
      split
      · split
        · exact Or.inr ⟨_, _, _, rfl⟩
        · exact Or.inl rfl
      · exact Or.inl rfl

/-- Witness for C10: the repeatable `education` field over a state where
`education` holds a string renders through the ordinary scalar path. -/
theorem c10_witness :
    renderTopField educationField [("education", .str "nope")] =
      renderFieldTop educationField [("education", .str "nope")] :=
  ((c10_repeatable_render_guard educationField [("education", .str "nope")] rfl).2.1
    (by decide)).1

/-- Counterexample to C5 as stated: `removeRepeatableEntry` is not total. On
a state where the targeted key is absent, `prev[name].filter(...)` is a
property access on `undefined` and throws a `TypeError` (modelled as `none`);
likewise `addRepeatableEntry` throws on a truthy non-iterable value, here the
number `5`, because `[...5, {}]` is a spread of a non-iterable. -/
theorem c5_counterexample :
    removeRepeatableEntry "k" 0 ([] : FormState) = none ∧
    addRepeatableEntry "k" [("k", Value.num 5)] = none :=
  ⟨rfl, rfl⟩

/-- C5 amended: `setScalar`, `setRepeatableEntry` and `setRepeatableField`
are total functions producing a new state snapshot; `removeRepeatableEntry`
succeeds exactly when the targeted key currently holds an array; and
`addRepeatableEntry` succeeds exactly when the key's current value is an
array, a string, or falsy (it throws on truthy non-iterables). -/
theorem c5_mutation_totality :
    (∀ k v s, setScalar k v s = setKey s k v) ∧
    (∀ k i s, (removeRepeatableEntry k i s).isSome = isArray (getProp s k)) ∧
    (∀ k s, (addRepeatableEntry k s).isSome = addSucceeds (getProp s k)) := by
  refine ⟨fun k v s => rfl, ?_, ?_⟩
  · intro k i s
    cases h : getProp s k <;>
      simp [removeRepeatableEntry, handleRemoveRepeatable, h, isArray]
  · intro k s
    cases h : getProp s k with
    | str s0 =>
        by_cases hs : s0 = "" <;>
          simp [addRepeatableEntry, handleAddRepeatable, h, addSucceeds, jsTruthy,
            arraySpread, hs]
    | bool b =>
        cases b <;>
          simp [addRepeatableEntry, handleAddRepeatable, h, addSucceeds, jsTruthy,
            arraySpread]
    | num n =>
        by_cases hn : n = 0 <;>
          simp [addRepeatableEntry, handleAddRepeatable, h, addSucceeds, jsTruthy,
            arraySpread, hn]
    | _ =>
        simp [addRepeatableEntry, handleAddRepeatable, h, addSucceeds, jsTruthy,
          arraySpread]

/-- C7: when the key holds an array with a record at the given index and the
nested key is non-empty (the code treats an empty nested key as absent),
`setRepeatableField` merges `{nestedKey: value}` into that record: the
resulting state replaces only that entry, the nested key now maps to the
value, and every other key of the record is preserved; in particular the
spec's example `setRepeatableField(key, 0, school, MIT)` on
`{key: [{year: 2020}]}` yields the merged record. -/
theorem c7_set_repeatable_field_merges :
    (∀ (k : String) (i : Nat) (nk : String) (v : Value) (s : FormState)
        (xs : List Value) (r : List (String × Value)),
      nk ≠ "" → lookupKey s k = some (.arr xs) → xs[i]? = some (.obj r) →
      setRepeatableField k i nk v s =
        setKey s k (.arr (xs.set i (.obj (setKey r nk v)))) ∧
      lookupKey (setKey r nk v) nk = some v ∧
      (∀ k2, k2 ≠ nk → lookupKey (setKey r nk v) k2 = lookupKey r k2)) ∧
    setRepeatableField "key" 0 "school" (.str "MIT")
        [("key", .arr [.obj [("year", .str "2020")]])] =
      [("key", .arr [.obj [("year", .str "2020"), ("school", .str "MIT")]])] := by
  refine ⟨?_, rfl⟩
  intro k i nk v s xs r hnk hl hx
  obtain ⟨hlt, hget⟩ := List.getElem?_eq_some.mp hx
  have hgd : xs.getD i .undefined = .obj r := by
    rw [List.getD_eq_getElem _ _ hlt, hget]
  have hprop : getProp s k = .arr xs := by
    simp [getProp, hl]
  refine ⟨?_, lookupKey_setKey_self r nk v, fun k2 h2 => lookupKey_setKey_other r nk k2 v h2⟩
  unfold setRepeatableField handleChange
  simp only [hprop, hgd, jsTruthy, if_true, hnk, if_neg hnk, objSpreadFields]
  simp [arraySet, hlt]

/-- Witness for C7: the general merge statement applied at the spec's
concrete `MIT` example. -/
theorem c7_witness :
    setRepeatableField "key" 0 "school" (.str "MIT")
        [("key", .arr [.obj [("year", .str "2020")]])] =
      setKey [("key", .arr [.obj [("year", .str "2020")]])] "key"
        (.arr ([Value.obj [("year", .str "2020")]].set 0
          (.obj (setKey [("year", .str "2020")] "school" (.str "MIT"))))) :=
  (c7_set_repeatable_field_merges.1 "key" 0 "school" (.str "MIT")
    [("key", .arr [.obj [("year", .str "2020")]])] [.obj [("year", .str "2020")]]
    [("year", .str "2020")] (by decide) rfl rfl).1

/-- C1: a submit event invokes `onSubmit` iff validation of the current state
succeeds, and then exactly once, passing the current form state (together
with the mutation handle `setFormData`); on failure the callback is not
invoked and the ErrorMap is populated from the violations; on success the
ErrorMap is cleared. The spec's `email` example is included concretely. -/
theorem c1_submit_callback :
    (∀ fields s,
      ((handleSubmit fields s).callbackInvocations = [s] ↔
        validateTop (buildTopRules fields) s = []) ∧
      (handleSubmit fields s).callbackInvocations.length ≤ 1) ∧
    (∀ fields s, validateTop (buildTopRules fields) s ≠ [] →
      (handleSubmit fields s).callbackInvocations = [] ∧
      (handleSubmit fields s).newErrorMessages =
        errorMapOf (validateTop (buildTopRules fields) s) ∧
      (handleSubmit fields s).newErrorMessages ≠ []) ∧
    (∀ fields s, validateTop (buildTopRules fields) s = [] →
      (handleSubmit fields s).newErrorMessages = []) ∧
    handleSubmit [emailField] [("email", .str "")] =
      { newErrorMessages := [("email", "is not allowed to be empty")],
        callbackInvocations := [] } ∧
    handleSubmit [emailField] [("email", .str "a@b.com")] =
      { newErrorMessages := [], callbackInvocations := [[("email", .str "a@b.com")]] } := by
  refine ⟨?_, ?_, ?_, rfl, rfl⟩
  · intro fields s
    cases hv : validateTop (buildTopRules fields) s with
    | nil => simp [handleSubmit, hv]
    | cons e rest => simp [handleSubmit, hv]
  · intro fields s hne
    cases hv : validateTop (buildTopRules fields) s with
    | nil => exact absurd hv hne
    | cons e rest =>
        exact ⟨by simp [handleSubmit, hv], by simp [handleSubmit, hv],
          by simpa [handleSubmit, hv] using errorMapOf_ne_nil e rest⟩
  · intro fields s hv
    simp [handleSubmit, hv]

/-- Witness for C1: at the failing `email` example, the callback is not
invoked and the ErrorMap is nonempty. -/
theorem c1_witness :
    (handleSubmit [emailField] [("email", Value.str "")]).callbackInvocations = [] ∧
    (handleSubmit [emailField] [("email", Value.str "")]).newErrorMessages ≠ [] := by
  have h := c1_submit_callback.2.1 [emailField] [("email", Value.str "")] (by decide)
  exact ⟨h.1, h.2.2⟩

/-- C2: the ErrorMap keys produced by validation are the dotted flattening of
the violation paths, which (for any key, index and non-empty nested key — the
code treats an empty nested key as absent) is exactly the error lookup key
computed by `renderField`; validation is exhaustive, every violating field
surfacing simultaneously; and on the spec's `education` example the ErrorMap
holds exactly the key `education.0.school`. -/
theorem c2_error_paths :
    (∀ (k : String) (i : Nat) (nk : String), nk ≠ "" →
      joinPath [k, toString i, nk] = renderErrorKey k (some i) (some nk)) ∧
    (∀ k : String, joinPath [k] = renderErrorKey k none none) ∧
    errorMapOf (validateTop (buildTopRules [educationField])
      [("education", .arr [.obj [("school", .str "")], .obj [("school", .str "X")]])]) =
      [("education.0.school", "is not allowed to be empty")] ∧
    errorMapOf (validateTop (buildTopRules [emailField, nameField])
      [("email", .str ""), ("name", .str "")]) =
      [("email", "is not allowed to be empty"), ("name", "is not allowed to be empty")] := by
  refine ⟨?_, fun k => rfl, by decide, by decide⟩
  intro k i nk hnk
  simp [joinPath, renderErrorKey, hnk, String.append_assoc]

/-- Witness for C2: the dotted path and the render lookup key coincide at a
concrete key, index and nested key. -/
theorem c2_witness :
    joinPath ["education", toString 0, "school"] =
      renderErrorKey "education" (some 0) (some "school") :=
  c2_error_paths.1 "education" 0 "school" (by decide)

/-- Counterexample to C4 as stated: a descriptor that is repeatable with
sub-fields and also carries its own rule does not get that rule applied.
`ruleIgnoredField` carries `rejectAll`, which rejects every value (including
the empty array at its key), yet submit succeeds and invokes the callback:
the schema builder's `repeatable && fields` branch shadows the
`else if (rule)` branch. -/
theorem c4_counterexample :
    handleSubmit [ruleIgnoredField] [("edu", .arr [])] =
      { newErrorMessages := [], callbackInvocations := [[("edu", Value.arr [])]] } ∧
    ruleIgnoredField.rule = some rejectAll ∧
    rejectAll (some (.arr [])) = ["rejected"] :=
  ⟨rfl, rfl, rfl⟩

/-- C4 amended: a top-level descriptor's attached rule is registered against
its key and applied at submit exactly when the descriptor is not both
repeatable and carrying sub-fields; for a descriptor that is repeatable with
sub-fields, the composite array rule is registered instead and the
descriptor's own rule is ignored. -/
theorem c4_rule_registration :
    (∀ (f : Field) (r : LeafCheck) (s : FormState),
      (f.repeatable = true → f.fields = none) → f.rule = some r →
      buildTopRules [f] = [(f.key, .leaf r)] ∧
      validateTop (buildTopRules [f]) s =
        (r (joiGet s f.key)).map fun m => { path := [f.key], message := m }) ∧
    (∀ (f : Field) (nfs : List NestedField),
      f.repeatable = true → f.fields = some nfs →
      buildTopRules [f] =
        [(f.key, .arrayOfObjects (f.min.getD 0) (f.max.getD 1000) (nestedRules nfs))]) := by
  constructor
  · intro f r s hnf hr
    have hcond : (f.repeatable && f.fields.isSome) = false := by
      cases hrep : f.repeatable
      · simp
      · simp [hnf hrep]
    have hb : buildTopRules [f] = [(f.key, .leaf r)] := by
      simp only [buildTopRules, List.foldl_cons, List.foldl_nil, hcond]
      simp [hr, setKey]
    refine ⟨hb, ?_⟩
    rw [hb]
    simp [validateTop, validateTopRule]
  · intro f nfs hrep hf
    simp [buildTopRules, hrep, hf, setKey]

/-- Witness for C4 (amended): the `email` descriptor's rule is registered
against `email` and applied to the state value at that key. -/
theorem c4_witness :
    buildTopRules [emailField] = [("email", .leaf requiredString)] ∧
    validateTop (buildTopRules [emailField]) [("email", Value.str "")] =
      (requiredString (some (Value.str ""))).map
        fun m => { path := ["email"], message := m } := by
  have h := c4_rule_registration.1 emailField requiredString [("email", Value.str "")]
    (fun hrep => by cases hrep) rfl
  exact ⟨h.1, h.2⟩

/-- C3: for a repeatable descriptor with sub-fields, the schema registered at
its key is the array rule with bounds `min ?? 0` and `max ?? 1000` whose
items are object rules from the nested fields' own rules; nested fields
without a rule are unconstrained (the `year` entry value is arbitrary); keys
present in the state or in an entry but absent from the schema produce no
error; and with the default bounds an `education` array of 1000 valid
entries passes while 1001 entries fail with exactly the length violation. -/
theorem c3_composite_rule :
    (∀ (f : Field) (nfs : List NestedField),
      f.repeatable = true → f.fields = some nfs →
      buildTopRules [f] =
        [(f.key, .arrayOfObjects (f.min.getD 0) (f.max.getD 1000) (nestedRules nfs))]) ∧
    (∀ v : Value, validateTop (buildTopRules [educationField])
      [("education", .arr [.obj [("school", .str "X"), ("year", v)]])] = []) ∧
    (∀ (rules : List (String × TopRule)) (k : String) (v : Value) (s : FormState),
      (∀ p ∈ rules, p.1 ≠ k) →
      validateTop rules ((k, v) :: s) = validateTop rules s) ∧
    (∀ (ik : List (String × LeafCheck)) (path : List String) (k : String)
        (v : Value) (fs : List (String × Value)),
      (∀ p ∈ ik, p.1 ≠ k) →
      validateEntry ik path (.obj ((k, v) :: fs)) = validateEntry ik path (.obj fs)) ∧
    validateTop (buildTopRules [educationField])
      [("education", .arr (List.replicate 1000 (.obj [("school", .str "X")])))] = [] ∧
    validateTop (buildTopRules [educationField])
      [("education", .arr (List.replicate 1001 (.obj [("school", .str "X")])))] =
      [{ path := ["education"],
         message := "must contain less than or equal to the maximum number of items" }] := by
  have hok : ∀ x ∈ List.replicate 1001 (Value.obj [("school", Value.str "X")]),
      ∀ p, validateEntry [("school", requiredString)] p x = [] := by
    intro x hx p
    rw [(List.mem_replicate.mp hx).2]
    rfl
  have hok1000 : ∀ x ∈ List.replicate 1000 (Value.obj [("school", Value.str "X")]),
      ∀ p, validateEntry [("school", requiredString)] p x = [] := by
    intro x hx p
    rw [(List.mem_replicate.mp hx).2]
    rfl
  have hb : buildTopRules [educationField] =
      [("education", .arrayOfObjects 0 1000 [("school", requiredString)])] := rfl
  refine ⟨?_, fun v => rfl, ?_, ?_, ?_, ?_⟩
  · intro f nfs hrep hf
    simp [buildTopRules, hrep, hf, setKey]
  · intro rules k v s hk
    induction rules with
    | nil => rfl
    | cons p rest ih =>
        obtain ⟨k1, r1⟩ := p
        have hne : k1 ≠ k := hk (k1, r1) (List.mem_cons_self _ _)
        have hg : joiGet ((k, v) :: s) k1 = joiGet s k1 := by
          simp [joiGet, lookupKey, Ne.symm hne]
        have ihr := ih fun p hp => hk p (List.mem_cons_of_mem _ hp)
        simp [validateTop, hg, ihr]
  · intro ik path k v fs hk
    induction ik with
    | nil => rfl
    | cons p rest ih =>
        obtain ⟨k1, c1⟩ := p
        have hne : k1 ≠ k := hk (k1, c1) (List.mem_cons_self _ _)
        have hg : joiGet ((k, v) :: fs) k1 = joiGet fs k1 := by
          simp [joiGet, lookupKey, Ne.symm hne]
        have ihr := ih fun p hp => hk p (List.mem_cons_of_mem _ hp)
        simpa [validateEntry, validateEntryKeys, hg] using ihr
  · rw [hb]
    simp only [validateTop, validateTopRule]
    rw [show joiGet [("education", Value.arr (List.replicate 1000
        (Value.obj [("school", Value.str "X")])))] "education" =
      some (Value.arr (List.replicate 1000 (Value.obj [("school", Value.str "X")]))) from rfl]
    simp only [List.length_replicate]
    rw [if_neg (by omega), if_neg (by omega), validateItems_eq_nil _ _ _ hok1000 0]
    rfl
  · rw [hb]
    simp only [validateTop, validateTopRule]
    rw [show joiGet [("education", Value.arr (List.replicate 1001
        (Value.obj [("school", Value.str "X")])))] "education" =
      some (Value.arr (List.replicate 1001 (Value.obj [("school", Value.str "X")]))) from rfl]
    simp only [List.length_replicate]
    rw [if_neg (by omega), if_pos (by omega), validateItems_eq_nil _ _ _ hok 0]
    rfl

/-- Witness for C3: the composite rule built for the `education` descriptor
has the default bounds 0 and 1000 and only the `school` nested rule. -/
theorem c3_witness :
    buildTopRules [educationField] =
      [("education", .arrayOfObjects 0 1000 (nestedRules
        [{ key := "school", rule := some requiredString }, { key := "year" }]))] :=
  c3_composite_rule.1 educationField
    [{ key := "school", rule := some requiredString }, { key := "year" }] rfl rfl

theorem stateInv_setKey (s : FormState) (k : String) (v : Value)
    (hs : stateInvB s = true) (hv : valueOK v = true) :
    stateInvB (setKey s k v) = true :=
  all_setKey valueOK s k v hs hv

theorem getProp_arr_all (s : FormState) (k : String) (xs : List Value)
    (hs : stateInvB s = true) (h : getProp s k = .arr xs) : xs.all isObj = true := by
  cases hl : lookupKey s k with
  | none => simp [getProp, hl] at h
  | some v =>
      have hv : v = .arr xs := by simpa [getProp, hl] using h
      have := valueOK_of_stateInv s k v hs hl
      rw [hv] at this
      simpa [valueOK] using this

theorem arraySet_entry_all (l : List Value) (i : Nat) (v : Value)
    (hall : l.all isObj = true) (hle : i ≤ l.length) (hv : isObj v = true) :
    ((arraySet (if jsTruthy (l.getD i .undefined) then l else arraySet l i (.obj [])) i v).all
      isObj) = true := by
  obtain ⟨h1, h2⟩ := entryFix_ok l i hall hle
  exact all_arraySet isObj _ i v h2 h1 hv

/-- Counterexample to C6 as stated: starting from `{k: []}`, which satisfies
the invariant, `setRepeatableField` at index 2 pads the skipped indices 0 and
1 with `undefined` holes (JS out-of-range indexed assignment), so the
resulting array does not hold a record at every index. -/
theorem c6_counterexample :
    stateInvB [("k", Value.arr [])] = true ∧
    setRepeatableField "k" 2 "a" (.str "v") [("k", .arr [])] =
      [("k", .arr [.undefined, .undefined, .obj [("a", .str "v")]])] ∧
    stateInvB (setRepeatableField "k" 2 "a" (.str "v") [("k", .arr [])]) = false :=
  ⟨rfl, rfl, rfl⟩

/-- C6 amended: every store mutation preserves the §3 invariant provided its
arguments respect the array bounds and record shape — `setScalar` when the
written value is itself hole- and non-record-free, `setRepeatableEntry` when
the entry is a record and the index is at most the current length,
`setRepeatableField` (with a non-empty nested key) when the index is at most
the current length, `addRepeatableEntry` when the key's value is an array or
falsy, and `removeRepeatableEntry` whenever it succeeds; an index strictly
beyond the current length leaves `undefined` holes at the skipped indices
(see the counterexample), violating the invariant. -/
theorem c6_invariant_preservation :
    (∀ k v s, stateInvB s = true → valueOK v = true →
      stateInvB (setScalar k v s) = true) ∧
    (∀ k i v s, stateInvB s = true → isObj v = true → i ≤ arrLenAt s k →
      stateInvB (setRepeatableEntry k i v s) = true) ∧
    (∀ k i nk v s, stateInvB s = true → nk ≠ "" → i ≤ arrLenAt s k →
      stateInvB (setRepeatableField k i nk v s) = true) ∧
    (∀ k s s1, stateInvB s = true →
      (isArray (getProp s k) || !jsTruthy (getProp s k)) = true →
      addRepeatableEntry k s = some s1 → stateInvB s1 = true) ∧
    (∀ k i s s1, stateInvB s = true → removeRepeatableEntry k i s = some s1 →
      stateInvB s1 = true) := by
  refine ⟨?_, ?_, ?_, ?_, ?_⟩
  · intro k v s hs hv
    exact stateInv_setKey s k v hs hv
  · intro k i v s hs hv hle
    cases hg : getProp s k with
    | arr l =>
        have hall := getProp_arr_all s k l hs hg
        have hle2 : i ≤ l.length := by simpa [arrLenAt, hg] using hle
        simp only [setRepeatableEntry, handleChange, hg]
        exact stateInv_setKey s k _ hs (by
          simpa [valueOK] using arraySet_entry_all l i v hall hle2 hv)
    | _ =>
        have hle2 : i ≤ ([] : List Value).length := by simpa [arrLenAt, hg] using hle
        simp only [setRepeatableEntry, handleChange, hg]
        exact stateInv_setKey s k _ hs (by
          simpa [valueOK] using arraySet_entry_all [] i v rfl hle2 hv)
  · intro k i nk v s hs hnk hle
    cases hg : getProp s k with
    | arr l =>
        have hall := getProp_arr_all s k l hs hg
        have hle2 : i ≤ l.length := by simpa [arrLenAt, hg] using hle
        simp only [setRepeatableField, handleChange, hg, if_neg hnk]
        exact stateInv_setKey s k _ hs (by
          simpa [valueOK] using
            arraySet_entry_all l i (.obj (setKey (objSpreadFields _) nk v)) hall hle2 rfl)
    | _ =>
        have hle2 : i ≤ ([] : List Value).length := by simpa [arrLenAt, hg] using hle
        simp only [setRepeatableField, handleChange, hg, if_neg hnk]
        exact stateInv_setKey s k _ hs (by
          simpa [valueOK] using
            arraySet_entry_all [] i (.obj (setKey (objSpreadFields _) nk v)) rfl hle2 rfl)
  · intro k s s1 hs hcond hadd
    cases hg : getProp s k with
    | arr xs =>
        have hall := getProp_arr_all s k xs hs hg
        rw [addRepeatableEntry, handleAddRepeatable, hg] at hadd
        simp only [jsTruthy, if_true, arraySpread, Option.some.injEq] at hadd
        rw [← hadd]
        refine stateInv_setKey s k _ hs ?_
        simp only [valueOK, List.all_append, Bool.and_eq_true]
        exact ⟨hall, by simp [isObj]⟩
    | str s0 =>
        have h0 : s0 = "" := by
          by_contra hne
          simp [isArray, jsTruthy, hg, hne] at hcond
        subst h0
        rw [addRepeatableEntry, handleAddRepeatable, hg] at hadd
        simp only [jsTruthy] at hadd
        rw [if_neg (by simp), arraySpread] at hadd
        cases hadd
        exact stateInv_setKey s k _ hs (by simp [valueOK, isObj])
    | num n =>
        have h0 : n = 0 := by
          by_contra hne
          simp [isArray, jsTruthy, hg, hne] at hcond
        subst h0
        rw [addRepeatableEntry, handleAddRepeatable, hg] at hadd
        simp only [jsTruthy] at hadd
        rw [if_neg (by simp), arraySpread] at hadd
        cases hadd
        exact stateInv_setKey s k _ hs (by simp [valueOK, isObj])
    | bool b =>
        have h0 : b = false := by
          by_contra hne
          simp [isArray, jsTruthy, hg, hne] at hcond
        subst h0
        rw [addRepeatableEntry, handleAddRepeatable, hg] at hadd
        simp only [jsTruthy] at hadd
        rw [if_neg (by simp), arraySpread] at hadd
        cases hadd
        exact stateInv_setKey s k _ hs (by simp [valueOK, isObj])
    | obj fs =>
        simp [isArray, jsTruthy, hg] at hcond
    | undefined =>
        rw [addRepeatableEntry, handleAddRepeatable, hg] at hadd
        simp only [jsTruthy] at hadd
        rw [if_neg (by simp), arraySpread] at hadd
        cases hadd
        exact stateInv_setKey s k _ hs (by simp [valueOK, isObj])
  · intro k i s s1 hs hrem
    cases hg : getProp s k with
    | arr xs =>
        have hall := getProp_arr_all s k xs hs hg
        rw [removeRepeatableEntry, handleRemoveRepeatable, hg] at hrem
        cases hrem
        exact stateInv_setKey s k _ hs (by
          simpa [valueOK] using all_filterOutIdx isObj i xs hall 0)
    | _ =>
        rw [removeRepeatableEntry, handleRemoveRepeatable, hg] at hrem
        cases hrem

/-- Witness for C6 (amended): appending an entry at the current length via
`setRepeatableEntry` keeps the invariant on a concrete one-entry state. -/
theorem c6_witness :
    stateInvB (setRepeatableEntry "k" 1 (.obj []) [("k", .arr [.obj []])]) = true :=
  c6_invariant_preservation.2.1 "k" 1 (.obj []) [("k", .arr [.obj []])]
    rfl rfl (by decide)

end EasyForm
